import Mathlib

/-!
Verification development for the `cooperative_learning` repository
(`src/main.py`): a shallow embedding of the episode runners
(`run_actor_critic_episode`, `run_monte_carlo_episode`, `run_nn_policy`),
the evaluation pass (`get_test_reward`) and the exploration-stddev
schedule of `main`, together with theorems about them.

Numpy float arrays are embedded as rational matrices (`List (List ℚ)`);
the environment, the state-representation builders and the Gaussian
sampler are opaque collaborators, modelled as explicit oracle records.
The `while True` loops of the source become fuel-indexed recursion
returning `Option`: `none` means the fuel ran out before the environment
signalled a terminal step.
-/

namespace Coop

/-- A numpy array of floats, embedded as a rational matrix (row list). -/
abbrev Mat : Type := List (List ℚ)

namespace Mat

/-- Elementwise subtraction of two matrices (numpy `a - b`). -/
def sub (a b : Mat) : Mat := List.zipWith (List.zipWith (· - ·)) a b

/-- Elementwise addition of two matrices (numpy `a + b`). -/
def addM (a b : Mat) : Mat := List.zipWith (List.zipWith (· + ·)) a b

/-- Division of every entry by a scalar (numpy `a / c`). -/
def divScalar (a : Mat) (c : ℚ) : Mat := a.map (List.map (· / c))

/-- Multiplication of every entry by a scalar (numpy `a * c`). -/
def mulScalar (a : Mat) (c : ℚ) : Mat := a.map (List.map (· * c))

/-- numpy broadcasting of `a * b` where `b` is a column vector
(shape `(n,1)`): row `i` of `a` is scaled by `b[i][0]`. -/
def rowMul (a b : Mat) : Mat :=
  List.zipWith (fun ra rb => ra.map (· * rb.headD 0)) a b

/-- `np.zeros((r, c))`. -/
def zeros (r c : ℕ) : Mat := List.replicate r (List.replicate c (0 : ℚ))

/-- Entry `[0][0]` of a matrix (defaulting to `0` when absent). -/
def entry00 (a : Mat) : ℚ := (a.headD []).headD 0

/-- Add `r` to the head entry of a row (`row[0] += r`). -/
def addHead (r : ℚ) : List ℚ → List ℚ
  | [] => []
  | x :: xs => (x + r) :: xs

/-- `m[0][0] += r`: bump the first entry of the first row. -/
def addAt00 (m : Mat) (r : ℚ) : Mat :=
  match m with
  | [] => []
  | row :: rest => addHead r row :: rest

end Mat

/-- The loop `for i in range(num_cars): m[i][0] += r` of
`run_actor_critic_episode`: bump entry `[i][0]` of the first `numCars`
rows (the Python loop raises when `numCars` exceeds the row count; that
error path is outside the model). -/
def addToCol0 (numCars : ℕ) (r : ℚ) (m : Mat) : Mat :=
  ((m.take numCars).map (Mat.addHead r)) ++ m.drop numCars

/-- `np.concatenate(batch)` over a list of matrices: vertical
concatenation along axis 0. -/
def npConcat (ms : List Mat) : Mat := ms.flatten

/-- Modelled from the spec: `interface.clip_output` (the file
`interface.py` is not under `src/`) — "clamps each action dimension
independently to `[-max_accel, max_accel]`", a pure elementwise
saturation. -/
def clip_output (a : Mat) (maxAccel : ℚ) : Mat :=
  a.map (List.map (fun x => max (-maxAccel) (min maxAccel x)))

/-- A function approximator (Actor or Critic): an opaque parameter
state `Θ` with a pure `predict_on_batch` and a parameter-mutating
`train_on_batch`, threaded explicitly. -/
structure Approx (Θ : Type) where
  predict_on_batch : Θ → Mat → Mat
  train_on_batch : Θ → Mat → Mat → Θ

/-- Result of one `env.step(action)` call. -/
structure StepOut (E S : Type) where
  env : E
  state : S
  reward : ℚ
  is_terminal : Bool

/-- The environment collaborator: opaque internal state `E`, opaque
observation type `S`, deterministic `reset` and `step`, plus the
`get_max_accel()` scalar and the agent count `len(env._cars)`. -/
structure Env (E S : Type) where
  reset : E × S
  step : E → Mat → StepOut E S
  maxAccel : ℚ
  numCars : ℕ

/-- The `interface` module's builders (the file `interface.py` is not
under `src/`). `build_state_rep` and `build_whole_state` are opaque
deterministic builders. Modelled from the spec: `build_nn_output`
"draws per-dimension independent Gaussian noise with the given per-axis
standard deviations and adds it to `mean`"; the random draw is modelled
as an oracle indexed by the step counter. -/
structure Iface (S : Type) where
  build_state_rep : S → Mat
  build_whole_state : S → Mat
  build_nn_output : ℕ → Mat → ℚ → ℚ → Mat

/-- The actor gradient target of `run_actor_critic_episode`:
`(action_t - pred) / (stddev ** 2) * delta + pred`, with
`action_t = np.array(action).transpose()` and `delta` broadcast as a
per-agent column. -/
def acActorTarget (action pred delta : Mat) (stddev : ℚ) : Mat :=
  Mat.addM (Mat.rowMul (Mat.divScalar (Mat.sub (List.transpose action) pred) (stddev ^ 2)) delta) pred

/-- The actor target of `run_monte_carlo_episode`'s credit-assignment
walk: `(action_t - pred)/var * (Gt - critic_reward) + pred`, where the
advantage `adv = Gt - critic_reward` is a scalar. -/
def mcActorTarget (action pred : Mat) (var adv : ℚ) : Mat :=
  Mat.addM (Mat.mulScalar (Mat.divScalar (Mat.sub (List.transpose action) pred) var) adv) pred

/-- The critic bootstrap target of `run_actor_critic_episode` (steps
4–6 of the spec's §4.3): a per-agent zero vector on a terminal step,
otherwise the critic prediction on the new state, with the reward then
added to every agent's component. -/
def acNextReward (numCars : ℕ) (is_terminal : Bool) (criticPred : Mat) (reward : ℚ) : Mat :=
  addToCol0 numCars reward
    (if is_terminal then List.replicate numCars [(0 : ℚ)] else criticPred)

/-- The critic bootstrap target of `run_monte_carlo_episode`'s rollout:
`np.zeros((1,1))` on a terminal step, otherwise the critic prediction
on the new state, with the reward added only at entry `[0][0]`. -/
def mcNextReward (is_terminal : Bool) (criticPred : Mat) (reward : ℚ) : Mat :=
  Mat.addAt00 (if is_terminal then Mat.zeros 1 1 else criticPred) reward

/-- Everything computed during one step of `run_actor_critic_episode`,
recorded for inspection; `criticBefore` is the critic parameter state
at the start of the step (before this step's `train_on_batch`). -/
structure ACLog (S Θc : Type) where
  old_state : S
  old_state_rep : Mat
  pred : Mat
  action : Mat
  env_action : Mat
  new_state : S
  reward : ℚ
  is_terminal : Bool
  next_reward : Mat
  cur_reward : Mat
  delta : Mat
  criticBefore : Θc
  actor_target : Mat

/-- Result of a terminating `run_actor_critic_episode`. -/
structure ACResult (S Θa Θc : Type) where
  total_reward : ℚ
  num_steps : ℕ
  logs : List (ACLog S Θc)
  actorCalls : List (Mat × Mat)
  criticCalls : List (Mat × Mat)
  actorFinal : Θa
  criticFinal : Θc

/-- The `while True` loop of `run_actor_critic_episode`, fuelled. -/
def acGo {Θa Θc E S : Type} (A : Approx Θa) (C : Approx Θc) (env : Env E S) (ifc : Iface S)
    (stddev : ℚ) : ℕ → E → S → Θa → Θc → ℚ → ℕ → Option (ACResult S Θa Θc)
  | 0, _, _, _, _, _, _ => none
  | fuel + 1, e, old_state, θa, θc, total_reward, num_steps =>
      let old_state_rep := ifc.build_state_rep old_state
      let pred := A.predict_on_batch θa old_state_rep
      let action := ifc.build_nn_output num_steps pred stddev stddev
      let clipped_action := clip_output action env.maxAccel
      let out := env.step e clipped_action
      let next_reward := acNextReward env.numCars out.is_terminal
        (C.predict_on_batch θc (ifc.build_whole_state out.state)) out.reward
      let cur_reward := C.predict_on_batch θc (ifc.build_whole_state old_state)
      let delta := Mat.sub next_reward cur_reward
      let θc' := C.train_on_batch θc (ifc.build_whole_state old_state) next_reward
      let target := acActorTarget action pred delta stddev
      let θa' := A.train_on_batch θa old_state_rep target
      let log : ACLog S Θc :=
        ⟨old_state, old_state_rep, pred, action, clipped_action, out.state, out.reward,
         out.is_terminal, next_reward, cur_reward, delta, θc, target⟩
      let total' := total_reward + out.reward
      let steps' := num_steps + 1
      if out.is_terminal then
        some ⟨total', steps', [log], [(old_state_rep, target)],
              [(ifc.build_whole_state old_state, next_reward)], θa', θc'⟩
      else
        match acGo A C env ifc stddev fuel out.env out.state θa' θc' total' steps' with
        | none => none
        | some r =>
            some ⟨r.total_reward, r.num_steps, log :: r.logs,
                  (old_state_rep, target) :: r.actorCalls,
                  (ifc.build_whole_state old_state, next_reward) :: r.criticCalls,
                  r.actorFinal, r.criticFinal⟩

/-- `run_actor_critic_episode`: reset, then loop until terminal. -/
def run_actor_critic_episode {Θa Θc E S : Type} (A : Approx Θa) (C : Approx Θc)
    (env : Env E S) (ifc : Iface S) (stddev : ℚ) (fuel : ℕ) (θa : Θa) (θc : Θc) :
    Option (ACResult S Θa Θc) :=
  acGo A C env ifc stddev fuel env.reset.1 env.reset.2 θa θc 0 0

/-- One element of the Episode buffer:
`(old_state_rep, old_state, pred, action, reward)`. -/
structure Transition (S : Type) where
  state_rep : Mat
  state : S
  pred : Mat
  action : Mat
  reward : ℚ

/-- Everything computed during one rollout step of
`run_monte_carlo_episode`; `criticBefore` is the critic parameter state
at the start of the step. -/
structure MCRollLog (S Θc : Type) where
  old_state : S
  old_state_rep : Mat
  pred : Mat
  action : Mat
  env_action : Mat
  new_state : S
  reward : ℚ
  is_terminal : Bool
  next_reward : Mat
  criticBefore : Θc

/-- The conversion from a rollout log to the Transition appended to the
Episode buffer at that step. -/
def MCRollLog.toTransition {S Θc : Type} (l : MCRollLog S Θc) : Transition S :=
  ⟨l.old_state_rep, l.old_state, l.pred, l.action, l.reward⟩

/-- Result of the rollout phase of `run_monte_carlo_episode`. -/
structure MCRollResult (S Θc : Type) where
  episode : List (Transition S)
  logs : List (MCRollLog S Θc)
  total_reward : ℚ
  num_steps : ℕ
  actorCalls : List (Mat × Mat)
  criticCalls : List (Mat × Mat)
  criticFinal : Θc

/-- Rollout loop of `run_monte_carlo_episode`, fuelled. The actor is
only queried (`predict_on_batch`), never trained, so its parameter
state is a fixed argument; the `actorCalls` accumulator mirrors the
absence of any `actor.train_on_batch` call in the loop body. -/
def mcRoll {Θa Θc E S : Type} (A : Approx Θa) (C : Approx Θc) (env : Env E S) (ifc : Iface S)
    (stddev : ℚ) (θa : Θa) : ℕ → E → S → Θc → ℚ → ℕ → Option (MCRollResult S Θc)
  | 0, _, _, _, _, _ => none
  | fuel + 1, e, old_state, θc, total_reward, num_steps =>
      let old_state_rep := ifc.build_state_rep old_state
      let pred := A.predict_on_batch θa old_state_rep
      let action := ifc.build_nn_output num_steps pred stddev stddev
      let clipped_action := clip_output action env.maxAccel
      let out := env.step e clipped_action
      let tr : Transition S := ⟨old_state_rep, old_state, pred, action, out.reward⟩
      let next_reward := mcNextReward out.is_terminal
        (C.predict_on_batch θc (ifc.build_whole_state out.state)) out.reward
      let θc' := C.train_on_batch θc (ifc.build_whole_state old_state) next_reward
      let log : MCRollLog S Θc :=
        ⟨old_state, old_state_rep, pred, action, clipped_action, out.state, out.reward,
         out.is_terminal, next_reward, θc⟩
      let total' := total_reward + out.reward
      let steps' := num_steps + 1
      if out.is_terminal then
        some ⟨[tr], [log], total', steps', [],
              [(ifc.build_whole_state old_state, next_reward)], θc'⟩
      else
        match mcRoll A C env ifc stddev θa fuel out.env out.state θc' total' steps' with
        | none => none
        | some r =>
            some ⟨tr :: r.episode, log :: r.logs, r.total_reward, r.num_steps,
                  r.actorCalls,
                  (ifc.build_whole_state old_state, next_reward) :: r.criticCalls,
                  r.criticFinal⟩

/-- One record of the credit-assignment walk: the Transition being
processed, the running return `Gt` before this transition's reward is
subtracted, the critic baseline, and the actor target. -/
structure MCWalkLog (S : Type) where
  tr : Transition S
  gtBefore : ℚ
  critic_reward : ℚ
  target : Mat

/-- Phase 2 of `run_monte_carlo_episode`: walk the Episode forward with
running return `Gt`; for each Transition compute the critic baseline
and the actor target, then `Gt -= reward`. The critic is only queried,
never trained, during the walk. Returns the walk records and the final
value of `Gt`. -/
def mcWalk {Θc S : Type} (C : Approx Θc) (ifc : Iface S) (θc : Θc) (var : ℚ) :
    List (Transition S) → ℚ → List (MCWalkLog S) × ℚ
  | [], Gt => ([], Gt)
  | t :: ts, Gt =>
      let critic_reward := Mat.entry00 (C.predict_on_batch θc (ifc.build_whole_state t.state))
      let target := mcActorTarget t.action t.pred var (Gt - critic_reward)
      let rest := mcWalk C ifc θc var ts (Gt - t.reward)
      (⟨t, Gt, critic_reward, target⟩ :: rest.1, rest.2)

/-- Result of a terminating `run_monte_carlo_episode`. -/
structure MCResult (S Θa Θc : Type) where
  total_reward : ℚ
  num_steps : ℕ
  episode : List (Transition S)
  rollLogs : List (MCRollLog S Θc)
  walkLogs : List (MCWalkLog S)
  finalGt : ℚ
  state_batch : List Mat
  target_batch : List Mat
  actorCalls : List (Mat × Mat)
  criticCalls : List (Mat × Mat)
  actorFinal : Θa
  criticFinal : Θc

/-- `run_monte_carlo_episode`: rollout phase, then the credit-assignment
walk with `Gt` initialised to the total episode reward and
`var = stddev ** 2`, and finally a single batched
`actor.train_on_batch(np.concatenate(state_batch), np.concatenate(target_batch))`. -/
def run_monte_carlo_episode {Θa Θc E S : Type} (A : Approx Θa) (C : Approx Θc)
    (env : Env E S) (ifc : Iface S) (stddev : ℚ) (fuel : ℕ) (θa : Θa) (θc : Θc) :
    Option (MCResult S Θa Θc) :=
  (mcRoll A C env ifc stddev θa fuel env.reset.1 env.reset.2 θc 0 0).map fun roll =>
    let Gt := roll.total_reward
    let var := stddev ^ 2
    let w := mcWalk C ifc roll.criticFinal var roll.episode Gt
    let state_batch := w.1.map (fun l => l.tr.state_rep)
    let target_batch := w.1.map (fun l => l.target)
    let θa' := A.train_on_batch θa (npConcat state_batch) (npConcat target_batch)
    ⟨roll.total_reward, roll.num_steps, roll.episode, roll.logs, w.1, w.2,
     state_batch, target_batch,
     roll.actorCalls ++ [(npConcat state_batch, npConcat target_batch)],
     roll.criticCalls, θa', roll.criticFinal⟩

/-- Result of a terminating `run_nn_policy`: the network parameter
state is threaded through the loop and returned. -/
structure NNResult (Θa : Type) where
  total_reward : ℚ
  num_steps : ℕ
  nnFinal : Θa

/-- The `while True` loop of `run_nn_policy`, fuelled: only
`predict_on_batch` is ever called on the network. -/
def nnGo {Θa E S : Type} (A : Approx Θa) (env : Env E S) (ifc : Iface S) (stddev : ℚ) :
    ℕ → E → S → Θa → ℚ → ℕ → Option (NNResult Θa)
  | 0, _, _, _, _, _ => none
  | fuel + 1, e, state, θa, total_reward, num_steps =>
      let state_rep := ifc.build_state_rep state
      let pred := A.predict_on_batch θa state_rep
      let action := ifc.build_nn_output num_steps pred stddev stddev
      let clipped_action := clip_output action env.maxAccel
      let out := env.step e clipped_action
      let total' := total_reward + out.reward
      let steps' := num_steps + 1
      if out.is_terminal then some ⟨total', steps', θa⟩
      else nnGo A env ifc stddev fuel out.env out.state θa total' steps'

/-- `run_nn_policy` (rendering and recording side effects omitted). -/
def run_nn_policy {Θa E S : Type} (A : Approx Θa) (env : Env E S) (ifc : Iface S)
    (stddev : ℚ) (fuel : ℕ) (θa : Θa) : Option (NNResult Θa) :=
  nnGo A env ifc stddev fuel env.reset.1 env.reset.2 θa 0 0

/-- Result of `get_test_reward`. -/
structure TestResult (Θa Θc : Type) where
  ave_reward : ℚ
  ave_steps : ℚ
  actorFinal : Θa
  criticFinal : Θc

/-- The `for i in range(num_testing_iterations)` loop of
`get_test_reward`, accumulating reward and step sums and threading the
actor parameter state through the successive `run_nn_policy` calls. -/
def testGo {Θa E S : Type} (A : Approx Θa) (env : Env E S) (ifc : Iface S)
    (stddev : ℚ) (fuel : ℕ) : ℕ → Θa → ℚ → ℚ → Option (Θa × ℚ × ℚ)
  | 0, θa, r, s => some (θa, r, s)
  | n + 1, θa, r, s =>
      match run_nn_policy A env ifc stddev fuel θa with
      | none => none
      | some res =>
          testGo A env ifc stddev fuel n res.nnFinal (r + res.total_reward)
            (s + (res.num_steps : ℚ))

/-- `get_test_reward`: average reward and steps of
`num_testing_iterations` evaluation episodes. The critic is received
and passed through untouched, exactly as in the source, where the
`critic` argument is never used. -/
def get_test_reward {Θa Θc E S : Type} (A : Approx Θa) (env : Env E S) (ifc : Iface S)
    (test_std_dev : ℚ) (fuel : ℕ) (θa : Θa) (θc : Θc) (num_testing_iterations : ℕ) :
    Option (TestResult Θa Θc) :=
  (testGo A env ifc test_std_dev fuel num_testing_iterations θa 0 0).map fun r =>
    ⟨r.2.1 / (num_testing_iterations : ℚ), r.2.2 / (num_testing_iterations : ℚ), r.1, θc⟩

/-- `stddev = 0.1` in `main`. -/
def stddevInit : ℚ := 1 / 10

/-- `stddev_delta = 0.000000` in `main`. -/
def stddev_delta : ℚ := 0

/-- `stddev_min = 0.0001` in `main`. -/
def stddev_min : ℚ := 1 / 10000

/-- The per-iteration stddev update of `main`'s training loop:
`if stddev > stddev_min: stddev -= stddev_delta`. -/
def stddevStep (s : ℚ) : ℚ := if s > stddev_min then s - stddev_delta else s

/-- The exploration stddev at the start of training iteration `n`. -/
def stddevAt : ℕ → ℚ
  | 0 => stddevInit
  | n + 1 => stddevStep (stddevAt n)

/-! ## Prop-valued step invariants -/

/-- The per-step equations of `run_actor_critic_episode`: the
environment receives the clipped action, the critic target and
baseline come from the pre-training critic state, and the actor target
is the Gaussian policy-gradient regression target built from the
unclipped action. -/
def ACLogOK {Θc E S : Type} (C : Approx Θc) (env : Env E S) (ifc : Iface S) (stddev : ℚ)
    (l : ACLog S Θc) : Prop :=
  l.env_action = clip_output l.action env.maxAccel ∧
  l.next_reward = acNextReward env.numCars l.is_terminal
      (C.predict_on_batch l.criticBefore (ifc.build_whole_state l.new_state)) l.reward ∧
  l.cur_reward = C.predict_on_batch l.criticBefore (ifc.build_whole_state l.old_state) ∧
  l.delta = Mat.sub l.next_reward l.cur_reward ∧
  l.actor_target = acActorTarget l.action l.pred l.delta stddev

/-- The per-step equations of `run_monte_carlo_episode`'s rollout: the
environment receives the clipped action and the critic bootstrap target
is the 1×1 computation of the source, taken from the pre-training
critic state. -/
def MCRollOK {Θc E S : Type} (C : Approx Θc) (env : Env E S) (ifc : Iface S)
    (l : MCRollLog S Θc) : Prop :=
  l.env_action = clip_output l.action env.maxAccel ∧
  l.next_reward = mcNextReward l.is_terminal
      (C.predict_on_batch l.criticBefore (ifc.build_whole_state l.new_state)) l.reward

/-! ## Concrete instantiations for counterexamples and witnesses -/

/-- A two-agent concrete instantiation: the episode terminates on the
first step with reward `1`. -/
def envC3 : Env Unit Unit := ⟨((), ()), fun _ _ => ⟨(), (), 1, true⟩, 1, 2⟩

/-- Trivial two-agent actor oracle with constant predictions. -/
def actorC3 : Approx Unit := ⟨fun _ _ => [[0, 0], [0, 0]], fun θ _ _ => θ⟩

/-- Trivial critic oracle predicting `[[5], [7]]` everywhere. -/
def criticC3 : Approx Unit := ⟨fun _ _ => [[5], [7]], fun θ _ _ => θ⟩

/-- Trivial interface oracles for the two-agent instantiation. -/
def ifcC3 : Iface Unit := ⟨fun _ => [[0]], fun _ => [[0]], fun _ p _ _ => List.transpose p⟩

/-- A single-agent concrete instantiation terminating on the first
step with reward `1`. -/
def envW : Env Unit Unit := ⟨((), ()), fun _ _ => ⟨(), (), 1, true⟩, 1, 1⟩

/-- Single-agent actor oracle with a counting parameter state: every
training call bumps the parameter. -/
def actorW : Approx ℕ := ⟨fun _ _ => [[0, 0]], fun θ _ _ => θ + 1⟩

/-- Single-agent critic oracle predicting `[[2]]` everywhere, with a
counting parameter state. -/
def criticW : Approx ℕ := ⟨fun _ _ => [[2]], fun θ _ _ => θ + 1⟩

/-- Trivial interface oracles for the single-agent instantiation. -/
def ifcW : Iface Unit := ⟨fun _ => [[3]], fun _ => [[4]], fun _ p _ _ => List.transpose p⟩

/-! ## Invariants of the actor-critic runner -/

theorem acGo_logs_ok {Θa Θc E S : Type} (A : Approx Θa) (C : Approx Θc) (env : Env E S)
    (ifc : Iface S) (stddev : ℚ) :
    ∀ (fuel : ℕ) (e : E) (s : S) (θa : Θa) (θc : Θc) (tot : ℚ) (n : ℕ)
      (res : ACResult S Θa Θc),
      acGo A C env ifc stddev fuel e s θa θc tot n = some res →
      ∀ l ∈ res.logs, ACLogOK C env ifc stddev l := by
  intro fuel
  induction fuel with
  | zero => intro e s θa θc tot n res h; simp [acGo] at h
  | succ fuel ih =>
      intro e s θa θc tot n res h
      simp only [acGo] at h
      split at h
      · cases h
        intro l hl
        simp only [List.mem_singleton] at hl
        subst hl
        exact ⟨rfl, rfl, rfl, rfl, rfl⟩
      · split at h
        · exact absurd h (by simp)
        · rename_i r hrec
          cases h
          intro l hl
          simp only [List.mem_cons] at hl
          rcases hl with hl | hl
          · subst hl
            exact ⟨rfl, rfl, rfl, rfl, rfl⟩
          · exact ih _ _ _ _ _ _ r hrec l hl

theorem acGo_struct {Θa Θc E S : Type} (A : Approx Θa) (C : Approx Θc) (env : Env E S)
    (ifc : Iface S) (stddev : ℚ) :
    ∀ (fuel : ℕ) (e : E) (s : S) (θa : Θa) (θc : Θc) (tot : ℚ) (n : ℕ)
      (res : ACResult S Θa Θc),
      acGo A C env ifc stddev fuel e s θa θc tot n = some res →
      (∀ l ∈ res.logs.head?, l.criticBefore = θc) ∧
      List.Chain' (fun a b => b.criticBefore =
          C.train_on_batch a.criticBefore (ifc.build_whole_state a.old_state) a.next_reward)
        res.logs ∧
      res.actorCalls = res.logs.map (fun l => (l.old_state_rep, l.actor_target)) ∧
      res.criticCalls = res.logs.map (fun l => (ifc.build_whole_state l.old_state, l.next_reward)) := by
  intro fuel
  induction fuel with
  | zero => intro e s θa θc tot n res h; simp [acGo] at h
  | succ fuel ih =>
      intro e s θa θc tot n res h
      simp only [acGo] at h
      split at h
      · cases h
        refine ⟨?_, ?_, rfl, rfl⟩
        · intro l hl; simp only [List.head?, Option.mem_def, Option.some.injEq] at hl
          subst hl; rfl
        · simp
      · split at h
        · exact absurd h (by simp)
        · rename_i r hrec
          cases h
          obtain ⟨hhead, hchain, hac, hcc⟩ := ih _ _ _ _ _ _ r hrec
          refine ⟨?_, ?_, ?_, ?_⟩
          · intro l hl; simp only [List.head?, Option.mem_def, Option.some.injEq] at hl
            subst hl; rfl
          · exact List.chain'_cons'.2 ⟨fun y hy => (hhead y hy).trans rfl, hchain⟩
          · simpa using hac
          · simpa using hcc

/-! ## Invariants of the Monte-Carlo rollout -/

theorem mcRoll_logs_ok {Θa Θc E S : Type} (A : Approx Θa) (C : Approx Θc) (env : Env E S)
    (ifc : Iface S) (stddev : ℚ) (θa : Θa) :
    ∀ (fuel : ℕ) (e : E) (s : S) (θc : Θc) (tot : ℚ) (n : ℕ) (res : MCRollResult S Θc),
      mcRoll A C env ifc stddev θa fuel e s θc tot n = some res →
      ∀ l ∈ res.logs, MCRollOK C env ifc l := by
  intro fuel
  induction fuel with
  | zero => intro e s θc tot n res h; simp [mcRoll] at h
  | succ fuel ih =>
      intro e s θc tot n res h
      simp only [mcRoll] at h
      split at h
      · cases h
        intro l hl
        simp only [List.mem_singleton] at hl
        subst hl
        exact ⟨rfl, rfl⟩
      · split at h
        · exact absurd h (by simp)
        · rename_i r hrec
          cases h
          intro l hl
          simp only [List.mem_cons] at hl
          rcases hl with hl | hl
          · subst hl
            exact ⟨rfl, rfl⟩
          · exact ih _ _ _ _ _ r hrec l hl

theorem mcRoll_struct {Θa Θc E S : Type} (A : Approx Θa) (C : Approx Θc) (env : Env E S)
    (ifc : Iface S) (stddev : ℚ) (θa : Θa) :
    ∀ (fuel : ℕ) (e : E) (s : S) (θc : Θc) (tot : ℚ) (n : ℕ) (res : MCRollResult S Θc),
      mcRoll A C env ifc stddev θa fuel e s θc tot n = some res →
      res.episode = res.logs.map MCRollLog.toTransition ∧
      res.actorCalls = [] ∧
      res.criticCalls = res.logs.map (fun l => (ifc.build_whole_state l.old_state, l.next_reward)) ∧
      res.total_reward = tot + ((res.episode.map Transition.reward).sum) ∧
      res.episode ≠ [] ∧
      (∀ l ∈ res.logs.head?, l.criticBefore = θc) ∧
      List.Chain' (fun a b => b.criticBefore =
          C.train_on_batch a.criticBefore (ifc.build_whole_state a.old_state) a.next_reward)
        res.logs := by
  intro fuel
  induction fuel with
  | zero => intro e s θc tot n res h; simp [mcRoll] at h
  | succ fuel ih =>
      intro e s θc tot n res h
      simp only [mcRoll] at h
      split at h
      · cases h
        refine ⟨rfl, rfl, rfl, by simp, by simp, ?_, by simp⟩
        intro l hl; simp only [List.head?, Option.mem_def, Option.some.injEq] at hl
        subst hl; rfl
      · split at h
        · exact absurd h (by simp)
        · rename_i r hrec
          cases h
          obtain ⟨hep, hac, hcc, htot, hne, hhead, hchain⟩ := ih _ _ _ _ _ r hrec
          refine ⟨?_, hac, ?_, ?_, by simp, ?_, ?_⟩
          · simp only [List.map_cons, List.cons.injEq]
            exact ⟨rfl, hep⟩
          · simpa using hcc
          · simp only [List.map_cons, List.sum_cons]
            rw [htot]; ring
          · intro l hl; simp only [List.head?, Option.mem_def, Option.some.injEq] at hl
            subst hl; rfl
          · exact List.chain'_cons'.2 ⟨fun y hy => (hhead y hy).trans rfl, hchain⟩

/-! ## Invariants of the credit-assignment walk -/

theorem mcWalk_snd {Θc S : Type} (C : Approx Θc) (ifc : Iface S) (θc : Θc) (var : ℚ) :
    ∀ (ts : List (Transition S)) (Gt : ℚ),
      (mcWalk C ifc θc var ts Gt).2 = Gt - (ts.map Transition.reward).sum := by
  intro ts
  induction ts with
  | nil => intro Gt; simp [mcWalk]
  | cons t ts ih =>
      intro Gt
      simp only [mcWalk, List.map_cons, List.sum_cons, ih]
      ring

theorem mcWalk_map_tr {Θc S : Type} (C : Approx Θc) (ifc : Iface S) (θc : Θc) (var : ℚ) :
    ∀ (ts : List (Transition S)) (Gt : ℚ),
      (mcWalk C ifc θc var ts Gt).1.map MCWalkLog.tr = ts := by
  intro ts
  induction ts with
  | nil => intro Gt; simp [mcWalk]
  | cons t ts ih => intro Gt; simp [mcWalk, ih]

theorem mcWalk_head {Θc S : Type} (C : Approx Θc) (ifc : Iface S) (θc : Θc) (var : ℚ)
    (ts : List (Transition S)) (Gt : ℚ) :
    ∀ l ∈ (mcWalk C ifc θc var ts Gt).1.head?, l.gtBefore = Gt := by
  cases ts with
  | nil => simp [mcWalk]
  | cons t ts =>
      intro l hl
      simp only [mcWalk, List.head?, Option.mem_def, Option.some.injEq] at hl
      subst hl; rfl

theorem mcWalk_chain {Θc S : Type} (C : Approx Θc) (ifc : Iface S) (θc : Θc) (var : ℚ) :
    ∀ (ts : List (Transition S)) (Gt : ℚ),
      List.Chain' (fun a b => b.gtBefore = a.gtBefore - a.tr.reward)
        (mcWalk C ifc θc var ts Gt).1 := by
  intro ts
  induction ts with
  | nil => intro Gt; simp [mcWalk]
  | cons t ts ih =>
      intro Gt
      simp only [mcWalk]
      refine List.chain'_cons'.2 ⟨?_, ih _⟩
      intro y hy
      have := mcWalk_head C ifc θc var ts (Gt - t.reward) y hy
      simpa using this

theorem mcWalk_mem {Θc S : Type} (C : Approx Θc) (ifc : Iface S) (θc : Θc) (var : ℚ) :
    ∀ (ts : List (Transition S)) (Gt : ℚ),
      ∀ l ∈ (mcWalk C ifc θc var ts Gt).1,
        l.critic_reward = Mat.entry00 (C.predict_on_batch θc (ifc.build_whole_state l.tr.state)) ∧
        l.target = mcActorTarget l.tr.action l.tr.pred var (l.gtBefore - l.critic_reward) := by
  intro ts
  induction ts with
  | nil => intro Gt; simp [mcWalk]
  | cons t ts ih =>
      intro Gt l hl
      simp only [mcWalk, List.mem_cons] at hl
      rcases hl with hl | hl
      · subst hl; exact ⟨rfl, rfl⟩
      · exact ih _ l hl

/-! ## Frame lemmas for the evaluation pass -/

theorem nnGo_theta {Θa E S : Type} (A : Approx Θa) (env : Env E S) (ifc : Iface S) (stddev : ℚ) :
    ∀ (fuel : ℕ) (e : E) (s : S) (θa : Θa) (tot : ℚ) (n : ℕ) (res : NNResult Θa),
      nnGo A env ifc stddev fuel e s θa tot n = some res → res.nnFinal = θa := by
  intro fuel
  induction fuel with
  | zero => intro e s θa tot n res h; simp [nnGo] at h
  | succ fuel ih =>
      intro e s θa tot n res h
      simp only [nnGo] at h
      split at h
      · cases h; rfl
      · exact ih _ _ _ _ _ res h

theorem testGo_theta {Θa E S : Type} (A : Approx Θa) (env : Env E S) (ifc : Iface S)
    (stddev : ℚ) (fuel : ℕ) :
    ∀ (n : ℕ) (θa : Θa) (r s : ℚ) (out : Θa × ℚ × ℚ),
      testGo A env ifc stddev fuel n θa r s = some out → out.1 = θa := by
  intro n
  induction n with
  | zero => intro θa r s out h; simp only [testGo, Option.some.injEq] at h; subst h; rfl
  | succ n ih =>
      intro θa r s out h
      simp only [testGo] at h
      split at h
      · exact absurd h (by simp)
      · rename_i res hres
        have h1 := ih _ _ _ _ h
        have h2 := nnGo_theta A env ifc stddev fuel _ _ _ _ _ res hres
        exact h1.trans h2

/-! ## Small algebraic facts about the target computations -/

theorem addToCol0_replicate (n : ℕ) (r : ℚ) :
    addToCol0 n r (List.replicate n [(0 : ℚ)]) = List.replicate n [r] := by
  simp [addToCol0, List.take_replicate, List.drop_replicate, List.map_replicate, Mat.addHead]

/-- For a single agent the Monte-Carlo rollout's 1×1 critic bootstrap
computation coincides with the actor-critic one. -/
theorem mcNextReward_eq_acNextReward_one (b : Bool) (p : Mat) (r : ℚ) :
    mcNextReward b p r = acNextReward 1 b p r := by
  cases b with
  | true => simp [mcNextReward, acNextReward, Mat.addAt00, Mat.zeros, addToCol0, Mat.addHead]
  | false =>
      cases p with
      | nil => simp [mcNextReward, acNextReward, Mat.addAt00, addToCol0]
      | cons row rest =>
          simp [mcNextReward, acNextReward, Mat.addAt00, addToCol0]

/-! ## The stddev schedule of `main` -/

theorem stddevAt_const : ∀ n : ℕ, stddevAt n = stddevInit := by
  intro n
  induction n with
  | zero => rfl
  | succ n ih =>
      simp only [stddevAt, ih]
      norm_num [stddevStep, stddev_delta, stddev_min, stddevInit]

/-! ## The claims -/

/-- C1: in `run_monte_carlo_episode`, the total reward `R` is the sum
of the per-step rewards, the running return of the credit-assignment
walk starts at `R`, each transition decrements it by that transition's
reward, and after the last transition it equals `0` exactly. -/
theorem c1_mc_running_return {Θa Θc E S : Type} (A : Approx Θa) (C : Approx Θc) (env : Env E S)
    (ifc : Iface S) (stddev : ℚ) (fuel : ℕ) (θa : Θa) (θc : Θc) (res : MCResult S Θa Θc)
    (h : run_monte_carlo_episode A C env ifc stddev fuel θa θc = some res) :
    res.total_reward = (res.episode.map Transition.reward).sum ∧
    (∀ l ∈ res.walkLogs.head?, l.gtBefore = res.total_reward) ∧
    List.Chain' (fun a b => b.gtBefore = a.gtBefore - a.tr.reward) res.walkLogs ∧
    res.finalGt = 0 := by
  unfold run_monte_carlo_episode at h
  rcases hr : mcRoll A C env ifc stddev θa fuel env.reset.1 env.reset.2 θc 0 0 with _ | roll
  · rw [hr] at h; simp at h
  · rw [hr] at h
    simp only [Option.map_some', Option.some.injEq] at h
    subst h
    obtain ⟨-, -, -, htot, -, -, -⟩ :=
      mcRoll_struct A C env ifc stddev θa _ _ _ _ _ _ roll hr
    have htot' : roll.total_reward = (roll.episode.map Transition.reward).sum := by
      rw [htot]; ring
    refine ⟨htot', ?_, ?_, ?_⟩
    · intro l hl
      exact mcWalk_head C ifc roll.criticFinal (stddev ^ 2) roll.episode roll.total_reward l hl
    · exact mcWalk_chain C ifc roll.criticFinal (stddev ^ 2) roll.episode roll.total_reward
    · show (mcWalk C ifc roll.criticFinal (stddev ^ 2) roll.episode roll.total_reward).2 = 0
      rw [mcWalk_snd, htot']; ring

/-- C2: in both episode runners, the environment is always stepped
with the clipped action while the gradient targets are built from the
unclipped sampled action (the recorded Episode keeps the unclipped
action, and both target formulas consume it). -/
theorem c2_clip_for_env_unclipped_for_gradient
    {Θa Θc E S Θb Θd E2 S2 : Type}
    (A : Approx Θa) (C : Approx Θc) (env : Env E S) (ifc : Iface S)
    (stddev : ℚ) (fuel : ℕ) (θa : Θa) (θc : Θc) (resA : ACResult S Θa Θc)
    (B : Approx Θb) (D : Approx Θd) (env2 : Env E2 S2) (ifc2 : Iface S2)
    (stddev2 : ℚ) (fuel2 : ℕ) (θb : Θb) (θd : Θd) (resM : MCResult S2 Θb Θd)
    (hA : run_actor_critic_episode A C env ifc stddev fuel θa θc = some resA)
    (hM : run_monte_carlo_episode B D env2 ifc2 stddev2 fuel2 θb θd = some resM) :
    (∀ l ∈ resA.logs, l.env_action = clip_output l.action env.maxAccel ∧
        l.actor_target = acActorTarget l.action l.pred l.delta stddev) ∧
    (∀ l ∈ resM.rollLogs, l.env_action = clip_output l.action env2.maxAccel) ∧
    resM.episode = resM.rollLogs.map MCRollLog.toTransition ∧
    (∀ l ∈ resM.walkLogs,
        l.target = mcActorTarget l.tr.action l.tr.pred (stddev2 ^ 2)
          (l.gtBefore - l.critic_reward)) := by
  have hokA := acGo_logs_ok A C env ifc stddev fuel _ _ θa θc 0 0 resA hA
  unfold run_monte_carlo_episode at hM
  rcases hr : mcRoll B D env2 ifc2 stddev2 θb fuel2 env2.reset.1 env2.reset.2 θd 0 0 with _ | roll
  · rw [hr] at hM; simp at hM
  · rw [hr] at hM
    simp only [Option.map_some', Option.some.injEq] at hM
    subst hM
    obtain ⟨hep, -, -, -, -, -, -⟩ :=
      mcRoll_struct B D env2 ifc2 stddev2 θb _ _ _ _ _ _ roll hr
    have hokM := mcRoll_logs_ok B D env2 ifc2 stddev2 θb _ _ _ _ _ _ roll hr
    refine ⟨?_, ?_, hep, ?_⟩
    · intro l hl
      exact ⟨(hokA l hl).1, (hokA l hl).2.2.2.2⟩
    · intro l hl
      exact (hokM l hl).1
    · intro l hl
      exact (mcWalk_mem D ifc2 roll.criticFinal (stddev2 ^ 2) roll.episode
        roll.total_reward l hl).2

/-- C4: in `run_actor_critic_episode`, the actor target is
`(action_t - pred)/stddev² * delta + pred` with
`delta = next_reward - cur_reward`, `cur_reward` the critic prediction
on the old state taken from the critic state at the start of the step
(before that step's critic training, witness the chain of
`criticBefore` states), and each actor training call pairs
`old_state_rep` with that target. -/
theorem c4_ac_actor_update {Θa Θc E S : Type} (A : Approx Θa) (C : Approx Θc) (env : Env E S)
    (ifc : Iface S) (stddev : ℚ) (fuel : ℕ) (θa : Θa) (θc : Θc) (res : ACResult S Θa Θc)
    (h : run_actor_critic_episode A C env ifc stddev fuel θa θc = some res) :
    (∀ l ∈ res.logs.head?, l.criticBefore = θc) ∧
    List.Chain' (fun a b => b.criticBefore =
        C.train_on_batch a.criticBefore (ifc.build_whole_state a.old_state) a.next_reward)
      res.logs ∧
    (∀ l ∈ res.logs,
        l.cur_reward = C.predict_on_batch l.criticBefore (ifc.build_whole_state l.old_state) ∧
        l.delta = Mat.sub l.next_reward l.cur_reward ∧
        l.actor_target = acActorTarget l.action l.pred l.delta stddev) ∧
    res.actorCalls = res.logs.map (fun l => (l.old_state_rep, l.actor_target)) := by
  obtain ⟨hh, hch, hac, -⟩ := acGo_struct A C env ifc stddev fuel _ _ θa θc 0 0 res h
  have hok := acGo_logs_ok A C env ifc stddev fuel _ _ θa θc 0 0 res h
  exact ⟨hh, hch,
    fun l hl => ⟨(hok l hl).2.2.1, (hok l hl).2.2.2.1, (hok l hl).2.2.2.2⟩, hac⟩

/-- C5: in `run_monte_carlo_episode`'s credit-assignment walk, the
actor target of every recorded transition is
`(action_t - pred)/var * (Gt - critic_value) + pred` with
`critic_value` the critic prediction on the recorded state under the
post-rollout critic parameters, and `Gt` is decremented by the
transition's reward only after the target is computed. -/
theorem c5_mc_walk_target {Θa Θc E S : Type} (A : Approx Θa) (C : Approx Θc) (env : Env E S)
    (ifc : Iface S) (stddev : ℚ) (fuel : ℕ) (θa : Θa) (θc : Θc) (res : MCResult S Θa Θc)
    (h : run_monte_carlo_episode A C env ifc stddev fuel θa θc = some res) :
    List.Chain' (fun a b => b.gtBefore = a.gtBefore - a.tr.reward) res.walkLogs ∧
    ∀ l ∈ res.walkLogs,
      l.critic_reward =
        Mat.entry00 (C.predict_on_batch res.criticFinal (ifc.build_whole_state l.tr.state)) ∧
      l.target = mcActorTarget l.tr.action l.tr.pred (stddev ^ 2)
        (l.gtBefore - l.critic_reward) := by
  unfold run_monte_carlo_episode at h
  rcases hr : mcRoll A C env ifc stddev θa fuel env.reset.1 env.reset.2 θc 0 0 with _ | roll
  · rw [hr] at h; simp at h
  · rw [hr] at h
    simp only [Option.map_some', Option.some.injEq] at h
    subst h
    refine ⟨mcWalk_chain C ifc roll.criticFinal (stddev ^ 2) roll.episode roll.total_reward, ?_⟩
    intro l hl
    exact mcWalk_mem C ifc roll.criticFinal (stddev ^ 2) roll.episode roll.total_reward l hl

/-- C6: in `run_actor_critic_episode`, on a terminal step the critic
bootstrap target is the per-agent zero vector plus the reward, i.e.
exactly the reward in every agent's component. -/
theorem c6_ac_terminal_next_value {Θa Θc E S : Type} (A : Approx Θa) (C : Approx Θc)
    (env : Env E S) (ifc : Iface S) (stddev : ℚ) (fuel : ℕ) (θa : Θa) (θc : Θc)
    (res : ACResult S Θa Θc)
    (h : run_actor_critic_episode A C env ifc stddev fuel θa θc = some res) :
    ∀ l ∈ res.logs, l.is_terminal = true →
      l.next_reward = List.replicate env.numCars [l.reward] := by
  intro l hl ht
  have hok := acGo_logs_ok A C env ifc stddev fuel _ _ θa θc 0 0 res h l hl
  rw [hok.2.1, ht]
  simp [acNextReward, addToCol0_replicate]

/-- C7: in `run_monte_carlo_episode`, the actor receives no training
call during the rollout and exactly one batched call afterwards,
covering the concatenation of all accumulated
`(state_rep, target)` pairs. -/
theorem c7_mc_single_actor_call {Θa Θc E S : Type} (A : Approx Θa) (C : Approx Θc)
    (env : Env E S) (ifc : Iface S) (stddev : ℚ) (fuel : ℕ) (θa : Θa) (θc : Θc)
    (res : MCResult S Θa Θc)
    (h : run_monte_carlo_episode A C env ifc stddev fuel θa θc = some res) :
    res.actorCalls = [(npConcat res.state_batch, npConcat res.target_batch)] ∧
    res.state_batch = res.walkLogs.map (fun l => l.tr.state_rep) ∧
    res.target_batch = res.walkLogs.map MCWalkLog.target ∧
    res.actorFinal = A.train_on_batch θa (npConcat res.state_batch) (npConcat res.target_batch) := by
  unfold run_monte_carlo_episode at h
  rcases hr : mcRoll A C env ifc stddev θa fuel env.reset.1 env.reset.2 θc 0 0 with _ | roll
  · rw [hr] at h; simp at h
  · rw [hr] at h
    simp only [Option.map_some', Option.some.injEq] at h
    subst h
    obtain ⟨-, hac, -, -, -, -, -⟩ :=
      mcRoll_struct A C env ifc stddev θa _ _ _ _ _ _ roll hr
    refine ⟨?_, rfl, rfl, rfl⟩
    show roll.actorCalls ++ _ = _
    rw [hac]
    rfl

/-- C8: an evaluation pass (`get_test_reward` over any number of
`run_nn_policy` episodes) never trains the Actor or the Critic: both
parameter states come back unchanged. -/
theorem c8_eval_no_training {Θa Θc E S : Type} (A : Approx Θa) (env : Env E S) (ifc : Iface S)
    (test_std_dev : ℚ) (fuel : ℕ) (θa : Θa) (θc : Θc) (n : ℕ) (res : TestResult Θa Θc)
    (h : get_test_reward A env ifc test_std_dev fuel θa θc n = some res) :
    res.actorFinal = θa ∧ res.criticFinal = θc := by
  unfold get_test_reward at h
  rcases ht : testGo A env ifc test_std_dev fuel n θa 0 0 with _ | out
  · rw [ht] at h; simp at h
  · rw [ht] at h
    simp only [Option.map_some', Option.some.injEq] at h
    subst h
    exact ⟨testGo_theta A env ifc test_std_dev fuel n θa 0 0 out ht, rfl⟩

/-- C9: across the Trainer's loop the exploration stddev never
increases and never drops below the configured floor `stddev_min`. -/
theorem c9_stddev_monotone_floor :
    ∀ n : ℕ, stddevAt (n + 1) ≤ stddevAt n ∧ stddev_min ≤ stddevAt n := by
  intro n
  rw [stddevAt_const n, stddevAt_const (n + 1)]
  norm_num [stddevInit, stddev_min]

/-- C10: a terminating `run_monte_carlo_episode` always records at
least one Transition, and the final batched actor training call
receives non-empty state and target batches. -/
theorem c10_mc_nonempty {Θa Θc E S : Type} (A : Approx Θa) (C : Approx Θc) (env : Env E S)
    (ifc : Iface S) (stddev : ℚ) (fuel : ℕ) (θa : Θa) (θc : Θc) (res : MCResult S Θa Θc)
    (h : run_monte_carlo_episode A C env ifc stddev fuel θa θc = some res) :
    res.episode ≠ [] ∧ res.state_batch ≠ [] ∧ res.target_batch ≠ [] := by
  unfold run_monte_carlo_episode at h
  rcases hr : mcRoll A C env ifc stddev θa fuel env.reset.1 env.reset.2 θc 0 0 with _ | roll
  · rw [hr] at h; simp at h
  · rw [hr] at h
    simp only [Option.map_some', Option.some.injEq] at h
    subst h
    obtain ⟨-, -, -, -, hne, -, -⟩ :=
      mcRoll_struct A C env ifc stddev θa _ _ _ _ _ _ roll hr
    have hw : (mcWalk C ifc roll.criticFinal (stddev ^ 2) roll.episode roll.total_reward).1 ≠ [] := by
      intro hnil
      apply hne
      have hmap := mcWalk_map_tr C ifc roll.criticFinal (stddev ^ 2) roll.episode roll.total_reward
      rw [hnil] at hmap
      exact hmap.symm
    exact ⟨hne, by simpa using hw, by simpa using hw⟩

/-- C3 (amended): during the Monte-Carlo rollout the per-step critic
bootstrap target is the source's 1×1 computation — zero (as
`np.zeros((1,1))`) on a terminal step, otherwise the critic prediction
on the new state, with the reward added only at entry `[0][0]` — and
the critic is trained on the old whole-state toward it; this coincides
with the actor-critic steps 4–6 computation exactly when the agent
count is 1. -/
theorem c3_mc_bootstrap_vs_ac {Θa Θc E S : Type} (A : Approx Θa) (C : Approx Θc) (env : Env E S)
    (ifc : Iface S) (stddev : ℚ) (fuel : ℕ) (θa : Θa) (θc : Θc) (res : MCResult S Θa Θc)
    (h : run_monte_carlo_episode A C env ifc stddev fuel θa θc = some res) :
    (∀ l ∈ res.rollLogs,
        l.next_reward = mcNextReward l.is_terminal
          (C.predict_on_batch l.criticBefore (ifc.build_whole_state l.new_state)) l.reward) ∧
    res.criticCalls =
      res.rollLogs.map (fun l => (ifc.build_whole_state l.old_state, l.next_reward)) ∧
    (env.numCars = 1 → ∀ l ∈ res.rollLogs,
        l.next_reward = acNextReward env.numCars l.is_terminal
          (C.predict_on_batch l.criticBefore (ifc.build_whole_state l.new_state)) l.reward) := by
  unfold run_monte_carlo_episode at h
  rcases hr : mcRoll A C env ifc stddev θa fuel env.reset.1 env.reset.2 θc 0 0 with _ | roll
  · rw [hr] at h; simp at h
  · rw [hr] at h
    simp only [Option.map_some', Option.some.injEq] at h
    subst h
    obtain ⟨-, -, hcc, -, -, -, -⟩ :=
      mcRoll_struct A C env ifc stddev θa _ _ _ _ _ _ roll hr
    have hok := mcRoll_logs_ok A C env ifc stddev θa _ _ _ _ _ _ roll hr
    refine ⟨fun l hl => (hok l hl).2, hcc, ?_⟩
    intro h1 l hl
    rw [h1, (hok l hl).2, mcNextReward_eq_acNextReward_one]

/-- C3 (counterexample): with two agents (`envC3.numCars = 2`), the
critic target actually trained during the Monte-Carlo rollout at a
terminal step with reward `1` is the 1×1 matrix `[[1]]`, whereas the
actor-critic steps 4–6 computation at the very same step data yields
the per-agent `[[1], [1]]` — the two bootstrap targets differ. -/
theorem c3_counterexample :
    ∃ res, run_monte_carlo_episode actorC3 criticC3 envC3 ifcC3 1 1 () () = some res ∧
      envC3.numCars = 2 ∧
      res.rollLogs.map MCRollLog.next_reward = [[[(1 : ℚ)]]] ∧
      acNextReward envC3.numCars true
        (criticC3.predict_on_batch () (ifcC3.build_whole_state ())) 1 = [[(1 : ℚ)], [1]] ∧
      ([[(1 : ℚ)]] : Mat) ≠ [[(1 : ℚ)], [1]] := by
  refine ⟨_, rfl, rfl, ?_, ?_, ?_⟩
  · show List.map MCRollLog.next_reward _ = _
    simp [envC3, criticC3, ifcC3, mcNextReward, Mat.addAt00, Mat.zeros, Mat.addHead]
  · simp [envC3, criticC3, ifcC3, acNextReward, addToCol0, Mat.addHead]
  · simp

/-! ## Witnesses: the claim theorems applied to a concrete episode -/

/-- C1 witness: the running-return property at a concrete one-step
episode. -/
theorem c1_witness :
    ∃ res, run_monte_carlo_episode actorW criticW envW ifcW 1 1 7 9 = some res ∧
      (res.total_reward = (res.episode.map Transition.reward).sum ∧
       (∀ l ∈ res.walkLogs.head?, l.gtBefore = res.total_reward) ∧
       List.Chain' (fun a b => b.gtBefore = a.gtBefore - a.tr.reward) res.walkLogs ∧
       res.finalGt = 0) :=
  ⟨_, rfl, c1_mc_running_return actorW criticW envW ifcW 1 1 7 9 _ rfl⟩

/-- C2 witness: the clipping invariant at concrete one-step episodes of
both runners. -/
theorem c2_witness :
    ∃ resA resM,
      run_actor_critic_episode actorW criticW envW ifcW 1 1 7 9 = some resA ∧
      run_monte_carlo_episode actorW criticW envW ifcW 1 1 7 9 = some resM ∧
      ((∀ l ∈ resA.logs, l.env_action = clip_output l.action envW.maxAccel ∧
          l.actor_target = acActorTarget l.action l.pred l.delta 1) ∧
       (∀ l ∈ resM.rollLogs, l.env_action = clip_output l.action envW.maxAccel) ∧
       resM.episode = resM.rollLogs.map MCRollLog.toTransition ∧
       (∀ l ∈ resM.walkLogs,
          l.target = mcActorTarget l.tr.action l.tr.pred ((1 : ℚ) ^ 2)
            (l.gtBefore - l.critic_reward))) :=
  ⟨_, _, rfl, rfl,
    c2_clip_for_env_unclipped_for_gradient actorW criticW envW ifcW 1 1 7 9 _
      actorW criticW envW ifcW 1 1 7 9 _ rfl rfl⟩

/-- C3 witness: the amended bootstrap property at a concrete one-agent
one-step episode. -/
theorem c3_witness :
    ∃ res, run_monte_carlo_episode actorW criticW envW ifcW 1 1 7 9 = some res ∧
      ((∀ l ∈ res.rollLogs,
          l.next_reward = mcNextReward l.is_terminal
            (criticW.predict_on_batch l.criticBefore (ifcW.build_whole_state l.new_state))
            l.reward) ∧
       res.criticCalls =
         res.rollLogs.map (fun l => (ifcW.build_whole_state l.old_state, l.next_reward)) ∧
       (envW.numCars = 1 → ∀ l ∈ res.rollLogs,
          l.next_reward = acNextReward envW.numCars l.is_terminal
            (criticW.predict_on_batch l.criticBefore (ifcW.build_whole_state l.new_state))
            l.reward)) :=
  ⟨_, rfl, c3_mc_bootstrap_vs_ac actorW criticW envW ifcW 1 1 7 9 _ rfl⟩

/-- C4 witness: the actor-critic update equations at a concrete
one-step episode. -/
theorem c4_witness :
    ∃ res, run_actor_critic_episode actorW criticW envW ifcW 1 1 7 9 = some res ∧
      ((∀ l ∈ res.logs.head?, l.criticBefore = 9) ∧
       List.Chain' (fun a b => b.criticBefore =
           criticW.train_on_batch a.criticBefore (ifcW.build_whole_state a.old_state)
             a.next_reward) res.logs ∧
       (∀ l ∈ res.logs,
          l.cur_reward = criticW.predict_on_batch l.criticBefore
            (ifcW.build_whole_state l.old_state) ∧
          l.delta = Mat.sub l.next_reward l.cur_reward ∧
          l.actor_target = acActorTarget l.action l.pred l.delta 1) ∧
       res.actorCalls = res.logs.map (fun l => (l.old_state_rep, l.actor_target))) :=
  ⟨_, rfl, c4_ac_actor_update actorW criticW envW ifcW 1 1 7 9 _ rfl⟩

/-- C5 witness: the credit-assignment target equations at a concrete
one-step episode. -/
theorem c5_witness :
    ∃ res, run_monte_carlo_episode actorW criticW envW ifcW 1 1 7 9 = some res ∧
      (List.Chain' (fun a b => b.gtBefore = a.gtBefore - a.tr.reward) res.walkLogs ∧
       ∀ l ∈ res.walkLogs,
         l.critic_reward = Mat.entry00
           (criticW.predict_on_batch res.criticFinal (ifcW.build_whole_state l.tr.state)) ∧
         l.target = mcActorTarget l.tr.action l.tr.pred ((1 : ℚ) ^ 2)
           (l.gtBefore - l.critic_reward)) :=
  ⟨_, rfl, c5_mc_walk_target actorW criticW envW ifcW 1 1 7 9 _ rfl⟩

/-- C6 witness: the terminal bootstrap value at a concrete one-step
episode (which terminates immediately). -/
theorem c6_witness :
    ∃ res, run_actor_critic_episode actorW criticW envW ifcW 1 1 7 9 = some res ∧
      (∀ l ∈ res.logs, l.is_terminal = true →
        l.next_reward = List.replicate envW.numCars [l.reward]) :=
  ⟨_, rfl, c6_ac_terminal_next_value actorW criticW envW ifcW 1 1 7 9 _ rfl⟩

/-- C7 witness: the single batched actor call at a concrete one-step
episode. -/
theorem c7_witness :
    ∃ res, run_monte_carlo_episode actorW criticW envW ifcW 1 1 7 9 = some res ∧
      (res.actorCalls = [(npConcat res.state_batch, npConcat res.target_batch)] ∧
       res.state_batch = res.walkLogs.map (fun l => l.tr.state_rep) ∧
       res.target_batch = res.walkLogs.map MCWalkLog.target ∧
       res.actorFinal = actorW.train_on_batch 7 (npConcat res.state_batch)
         (npConcat res.target_batch)) :=
  ⟨_, rfl, c7_mc_single_actor_call actorW criticW envW ifcW 1 1 7 9 _ rfl⟩

/-- C8 witness: a concrete evaluation pass leaves the (counting)
parameter states of both networks untouched. -/
theorem c8_witness :
    ∃ res, get_test_reward actorW envW ifcW 1 1 7 9 1 = some res ∧
      (res.actorFinal = 7 ∧ res.criticFinal = 9) :=
  ⟨_, rfl, c8_eval_no_training actorW envW ifcW 1 1 7 9 1 _ rfl⟩

/-- C10 witness: non-emptiness of the episode and batches at a concrete
one-step episode. -/
theorem c10_witness :
    ∃ res, run_monte_carlo_episode actorW criticW envW ifcW 1 1 7 9 = some res ∧
      (res.episode ≠ [] ∧ res.state_batch ≠ [] ∧ res.target_batch ≠ []) :=
  ⟨_, rfl, c10_mc_nonempty actorW criticW envW ifcW 1 1 7 9 _ rfl⟩

end Coop
